import Mathlib

/-!
Verification of the volmicro execution/accounting core.

The Python source (src/volmicro/rules.py, portfolio.py, engine.py) is
shallowly embedded over exact rationals: `Decimal` arithmetic and the
float arithmetic of the ledger are both modelled as exact `ℚ`
arithmetic, with the numeric literals of the source (`1e-9`, `1e-12`,
bps divisors) taken at face value.
-/

namespace Volmicro

/-- Truncation of a rational toward zero, the meaning of
`Decimal.to_integral_value(rounding=ROUND_DOWN)` in `rules._floor_to_step`. -/
def ratTrunc (q : ℚ) : ℤ :=
  if 0 ≤ q then ⌊q⌋ else ⌈q⌉

/-- Embedding of `rules.SymbolRules`: per-symbol exchange constraints (the Decimal fields,
modelled as rationals; `symbol` and `raw_filters` carry no behaviour here). -/
structure SymbolRules where
  tick_size : ℚ
  step_size : ℚ
  min_qty : Option ℚ
  max_qty : Option ℚ
  min_notional : Option ℚ
deriving DecidableEq

/-- Embedding of `rules._floor_to_step`: round `value` down (toward zero) to a multiple of
`step`; a non-positive `step` returns `value` unchanged. -/
def floor_to_step (value step : ℚ) : ℚ :=
  if step ≤ 0 then value else (ratTrunc (value / step) : ℚ) * step

/-- Embedding of `rules.round_price`. -/
def round_price (price tick_size : ℚ) : ℚ :=
  floor_to_step price tick_size

/-- Embedding of `rules.round_qty`. -/
def round_qty (qty step_size : ℚ) : ℚ :=
  floor_to_step qty step_size

/-- Helper for the two optional-threshold checks of `rules.is_order_valid`. -/
def belowMin (x : ℚ) : Option ℚ → Bool
  | some m => decide (x < m)
  | none => false

/-- Embedding of `rules.is_order_valid`: reject when `qty < min_qty` (if present) or
`price * qty < min_notional` (if present). -/
def is_order_valid (price qty : ℚ) (min_notional min_qty : Option ℚ) : Bool :=
  if belowMin qty min_qty then false
  else if belowMin (price * qty) min_notional then false
  else true

/-- Embedding of `rules.apply_exchange_rules`: round price and qty, then validate. -/
def apply_exchange_rules (price qty : ℚ) (rules : SymbolRules) :
    ℚ × ℚ × Bool :=
  let p := round_price price rules.tick_size
  let q := round_qty qty rules.step_size
  (p, q, is_order_valid p q rules.min_notional rules.min_qty)

/-- Order side, `trades.Side`. -/
inductive Side where
  | BUY
  | SELL
deriving DecidableEq

/-- Embedding of `trades.Trade`: the immutable record of one executed order. -/
structure Trade where
  ts : ℚ
  symbol : String
  side : Side
  qty : ℚ
  price : ℚ
  fee : ℚ
  cash_after : ℚ
  qty_after : ℚ
  equity_after : ℚ
  realized_pnl : ℚ
  cum_realized_pnl : ℚ
  note : String
deriving DecidableEq

/-- Embedding of `portfolio.ExecPreview`: result of the execution model before any
state mutation. -/
structure ExecPreview where
  valid : Bool
  reason : Option String
  intended_price : ℚ
  exec_price_raw : ℚ
  exec_price : ℚ
  qty_raw : ℚ
  qty_rounded : ℚ
  price_round_diff : ℚ
  qty_round_diff : ℚ
  slippage_bps : ℚ
  notional_before_round : ℚ
  notional_after_round : ℚ
deriving DecidableEq

/-- Embedding of `portfolio.Portfolio`: the mutable ledger state (the fields that carry
behaviour; `run_id`, `reports_dir` and `_trade_meta` only feed logging and
CSV metadata). The equity curve written back by the engine is kept as a
field, mirroring `Portfolio._equity_curve`. -/
structure Portfolio where
  cash : ℚ
  qty : ℚ
  symbol : String
  fee_bps : ℚ
  starting_cash : ℚ
  last_price : Option ℚ
  trades : List Trade
  equity_curve : List (ℚ × ℚ)
  avg_price : ℚ
  realized_pnl : ℚ
  realized_pnl_net_fees : Bool
  rules : Option SymbolRules
  slippage_bps : ℚ
deriving DecidableEq

/-- The `1e-9` cash tolerance used by the BUY affordability checks. -/
def epsCash : ℚ := 1 / 1000000000

/-- The `1e-12` quantity tolerance used by `Portfolio.sell`. -/
def epsQty : ℚ := 1 / 1000000000000

/-- Embedding of `Portfolio.equity`: `cash + qty * p` where `p` is the explicit price if
given, else the last marked price; just `cash` when neither exists. -/
def Portfolio.equity (pf : Portfolio) (price : Option ℚ) : ℚ :=
  match price with
  | some p => pf.cash + pf.qty * p
  | none =>
    match pf.last_price with
    | some p => pf.cash + pf.qty * p
    | none => pf.cash

/-- Embedding of `Portfolio.mark_to_market`: record the latest observed price. -/
def Portfolio.mark_to_market (pf : Portfolio) (price : ℚ) : Portfolio :=
  { pf with last_price := some price }

/-- Embedding of `Portfolio._fee_from_notional`: `fee = notional * fee_bps / 10000`. -/
def Portfolio.fee_from_notional (pf : Portfolio) (notional : ℚ) : ℚ :=
  notional * (pf.fee_bps / 10000)

/-- Embedding of `Portfolio._apply_execution_model`: slippage, exchange rounding and the
validity checks, producing an `ExecPreview` without touching state. -/
def Portfolio.apply_execution_model (pf : Portfolio) (side : Side)
    (ref_price qty_raw : ℚ) : ExecPreview :=
  if qty_raw ≤ 0 ∨ ref_price ≤ 0 then
    { valid := false
      reason := some "qty/ref_price no validos"
      intended_price := ref_price
      exec_price_raw := ref_price
      exec_price := ref_price
      qty_raw := qty_raw
      qty_rounded := 0
      price_round_diff := 0
      qty_round_diff := qty_raw
      slippage_bps := pf.slippage_bps
      notional_before_round := 0
      notional_after_round := 0 }
  else
    let slip := pf.slippage_bps / 10000
    let exec_price_raw :=
      if side = Side.BUY then ref_price * (1 + slip) else ref_price * (1 - slip)
    let rounded :=
      match pf.rules with
      | some r => apply_exchange_rules exec_price_raw qty_raw r
      | none => (exec_price_raw, qty_raw, true)
    let exec_price := rounded.1
    let qty_rounded := rounded.2.1
    let ok := rounded.2.2
    let price_round_diff := exec_price_raw - exec_price
    let qty_round_diff := qty_raw - qty_rounded
    let notional_before := exec_price_raw * qty_raw
    let notional_after := exec_price * qty_rounded
    if qty_rounded ≤ 0 then
      { valid := false
        reason := some "qty_rounded == 0 tras stepSize"
        intended_price := ref_price
        exec_price_raw := exec_price_raw
        exec_price := exec_price
        qty_raw := qty_raw
        qty_rounded := qty_rounded
        price_round_diff := price_round_diff
        qty_round_diff := qty_round_diff
        slippage_bps := pf.slippage_bps
        notional_before_round := notional_before
        notional_after_round := notional_after }
    else if side = Side.BUY ∧ notional_after * (1 + pf.fee_bps / 10000) > pf.cash + epsCash then
      { valid := false
        reason := some "cash insuficiente (notional + fee)"
        intended_price := ref_price
        exec_price_raw := exec_price_raw
        exec_price := exec_price
        qty_raw := qty_raw
        qty_rounded := qty_rounded
        price_round_diff := price_round_diff
        qty_round_diff := qty_round_diff
        slippage_bps := pf.slippage_bps
        notional_before_round := notional_before
        notional_after_round := notional_after }
    else if pf.rules.isSome ∧ ok = false then
      { valid := false
        reason := some "reglas exchange: minNotional/minQty"
        intended_price := ref_price
        exec_price_raw := exec_price_raw
        exec_price := exec_price
        qty_raw := qty_raw
        qty_rounded := qty_rounded
        price_round_diff := price_round_diff
        qty_round_diff := qty_round_diff
        slippage_bps := pf.slippage_bps
        notional_before_round := notional_before
        notional_after_round := notional_after }
    else
      { valid := true
        reason := none
        intended_price := ref_price
        exec_price_raw := exec_price_raw
        exec_price := exec_price
        qty_raw := qty_raw
        qty_rounded := qty_rounded
        price_round_diff := price_round_diff
        qty_round_diff := qty_round_diff
        slippage_bps := pf.slippage_bps
        notional_before_round := notional_before
        notional_after_round := notional_after }

/-- Embedding of `Portfolio.buy`: run the execution model; on acceptance debit cash by
`notional + fee`, blend the average price, re-mark the last price at the
execution price and append the trade. Rejections leave the state as is. -/
def Portfolio.buy (pf : Portfolio) (ts qty price : ℚ) (note : String) :
    Portfolio :=
  if qty ≤ 0 then pf
  else
    let prev := pf.apply_execution_model Side.BUY price qty
    if prev.valid = false then pf
    else
      let price := prev.exec_price
      let qty := prev.qty_rounded
      let notional := qty * price
      let fee := pf.fee_from_notional notional
      let total := notional + fee
      if pf.cash + epsCash < total then pf
      else
        let new_qty := pf.qty + qty
        let avg :=
          if pf.qty ≤ 0 then price
          else (pf.avg_price * pf.qty + price * qty) / new_qty
        let pf1 := { pf with
          cash := pf.cash - total
          qty := new_qty
          avg_price := avg
          last_price := some price }
        let eq := pf1.equity (some price)
        let tr : Trade :=
          { ts := ts
            symbol := pf.symbol
            side := Side.BUY
            qty := qty
            price := price
            fee := fee
            cash_after := pf1.cash
            qty_after := pf1.qty
            equity_after := eq
            realized_pnl := 0
            cum_realized_pnl := pf.realized_pnl
            note := note }
        { pf1 with trades := pf1.trades ++ [tr] }

/-- Embedding of `Portfolio.sell`: raise (`Except.error`) when the requested quantity
exceeds the position beyond the `1e-12` tolerance; otherwise run the
execution model, and on acceptance credit cash by `notional - fee`,
update realized PnL, reduce the position (snapping a residual `≤ 1e-12`
to zero and resetting the average price) and append the trade. -/
def Portfolio.sell (pf : Portfolio) (ts qty price : ℚ) (note : String) :
    Except String Portfolio :=
  if qty ≤ 0 then Except.ok pf
  else if pf.qty + epsQty < qty then
    Except.error "No hay cantidad suficiente para vender."
  else
    let prev := pf.apply_execution_model Side.SELL price qty
    if prev.valid = false then Except.ok pf
    else
      let price := prev.exec_price
      let qty0 := prev.qty_rounded
      let qty := if pf.qty + epsQty < qty0 then min qty0 pf.qty else qty0
      let notional := qty * price
      let fee := pf.fee_from_notional notional
      let realized0 := (price - pf.avg_price) * qty
      let realized := if pf.realized_pnl_net_fees then realized0 - fee else realized0
      let cum := pf.realized_pnl + realized
      let qty_left := pf.qty - qty
      let pf1 := { pf with
        cash := pf.cash + (notional - fee)
        qty := if qty_left ≤ epsQty then 0 else qty_left
        avg_price := if qty_left ≤ epsQty then 0 else pf.avg_price
        realized_pnl := cum
        last_price := some price }
      let eq := pf1.equity (some price)
      let tr : Trade :=
        { ts := ts
          symbol := pf.symbol
          side := Side.SELL
          qty := qty
          price := price
          fee := fee
          cash_after := pf1.cash
          qty_after := pf1.qty
          equity_after := eq
          realized_pnl := realized
          cum_realized_pnl := cum
          note := note }
      Except.ok { pf1 with trades := pf1.trades ++ [tr] }

/-- Embedding of `core.Bar`: one OHLCV sample (timestamps modelled as rationals). -/
structure Bar where
  ts : ℚ
  open_p : ℚ
  high : ℚ
  low : ℚ
  close : ℚ
  volume : ℚ
  symbol : String
deriving DecidableEq

/-- The decision-policy collaborator seen by `engine.run_engine`: a
required per-bar callback plus the two optional duck-typed hooks. -/
structure Strategy where
  on_bar : Bar → Portfolio → Portfolio
  on_finish : Option (Portfolio → Portfolio)
  on_end : Option (Nat → Option Bar → Portfolio → Portfolio)

/-- The per-bar loop of `engine.run_engine`: mark to market with the close,
append `(bar.ts, equity())` to the curve, then hand the bar to the
strategy. -/
def engineLoop (strat : Strategy) :
    List Bar → Portfolio → List (ℚ × ℚ) → Portfolio × List (ℚ × ℚ)
  | [], pf, curve => (pf, curve)
  | bar :: rest, pf, curve =>
    let pf1 := pf.mark_to_market bar.close
    engineLoop strat rest (strat.on_bar bar pf1)
      (curve ++ [(bar.ts, pf1.equity none)])

/-- Embedding of `engine.run_engine`: run the loop, fire `on_finish`/`on_end` when
present, then append a final curve sample iff the last recorded equity
differs from the final equity; the curve is stored on the portfolio. -/
def run_engine (bars : List Bar) (pf0 : Portfolio) (strat : Strategy) :
    Portfolio :=
  let res := engineLoop strat bars pf0 []
  let curve := res.2
  let pf1 :=
    match strat.on_finish with
    | some f => f res.1
    | none => res.1
  let pf2 :=
    match strat.on_end with
    | some f => f curve.length bars.getLast? pf1
    | none => pf1
  match bars.getLast? with
  | none => { pf2 with equity_curve := curve }
  | some lb =>
    let fe := pf2.equity none
    if curve = [] ∨ curve.getLast?.map Prod.snd ≠ some fe then
      { pf2 with equity_curve := curve ++ [(lb.ts, fe)] }
    else
      { pf2 with equity_curve := curve }

/-! ## Lemmas on rounding -/

lemma ratTrunc_intCast (n : ℤ) : ratTrunc (n : ℚ) = n := by
  unfold ratTrunc
  split_ifs with h
  · exact Int.floor_intCast n
  · exact Int.ceil_intCast n

lemma floor_to_step_idem (x t : ℚ) :
    floor_to_step (floor_to_step x t) t = floor_to_step x t := by
  unfold floor_to_step
  split_ifs with h
  · rfl
  · have ht : t ≠ 0 := ne_of_gt (not_le.mp h)
    rw [mul_div_assoc, div_self ht, mul_one, ratTrunc_intCast]

lemma floor_to_step_le (x t : ℚ) (hx : 0 < x) (ht : 0 < t) :
    floor_to_step x t ≤ x := by
  unfold floor_to_step
  rw [if_neg (not_le.mpr ht)]
  have h0 : 0 ≤ x / t := le_of_lt (div_pos hx ht)
  rw [ratTrunc, if_pos h0]
  calc (⌊x / t⌋ : ℚ) * t ≤ x / t * t :=
        mul_le_mul_of_nonneg_right (Int.floor_le _) ht.le
    _ = x := div_mul_cancel₀ x (ne_of_gt ht)

/-- C7: price and quantity rounding are idempotent, and for positive input
and positive tick/step the rounded value never exceeds the input (floor
semantics). -/
theorem rounding_idempotent_and_floor (x t y s : ℚ) :
    round_price (round_price x t) t = round_price x t ∧
    round_qty (round_qty y s) s = round_qty y s ∧
    (0 < x → 0 < t → round_price x t ≤ x) ∧
    (0 < y → 0 < s → round_qty y s ≤ y) := by
  refine ⟨floor_to_step_idem x t, floor_to_step_idem y s, ?_, ?_⟩
  · exact fun hx ht => floor_to_step_le x t hx ht
  · exact fun hy hs => floor_to_step_le y s hy hs

/-- Witness for C7 at `x = 9.999`, `tick = 0.001`, `y = 0.0014`,
`step = 0.001`. -/
theorem rounding_idempotent_and_floor_witness :
    (0 : ℚ) < 9999/1000 ∧ (0 : ℚ) < 1/1000 ∧ (0 : ℚ) < 14/10000 ∧
    round_price (round_price (9999/1000) (1/1000)) (1/1000) =
      round_price (9999/1000) (1/1000) ∧
    round_price (9999/1000) (1/1000) ≤ 9999/1000 ∧
    round_qty (14/10000) (1/1000) ≤ 14/10000 := by
  refine ⟨by norm_num, by norm_num, by norm_num, ?_, ?_, ?_⟩
  · exact (rounding_idempotent_and_floor (9999/1000) (1/1000) (14/10000) (1/1000)).1
  · exact (rounding_idempotent_and_floor (9999/1000) (1/1000) (14/10000) (1/1000)).2.2.1
      (by norm_num) (by norm_num)
  · exact (rounding_idempotent_and_floor (9999/1000) (1/1000) (14/10000) (1/1000)).2.2.2
      (by norm_num) (by norm_num)

/-- The rules instance of the C8 example: `tick = step = 0.001`,
`min_qty = 0.001`, `min_notional = 10`. -/
def rulesMinNotional10 : SymbolRules :=
  { tick_size := 1/1000
    step_size := 1/1000
    min_qty := some (1/1000)
    max_qty := none
    min_notional := some 10 }

/-- C8: `is_order_valid` rejects exactly on a present-and-violated
`min_qty` or `min_notional` threshold; and with `min_notional = 10`, an
order whose rounded `price × qty = 9.999` is rejected although price and
quantity pass their own rounding unchanged. -/
theorem order_validation_iff :
    (∀ price qty : ℚ, ∀ mn mq : Option ℚ,
      is_order_valid price qty mn mq = false ↔
        ((∃ m, mq = some m ∧ qty < m) ∨ (∃ m, mn = some m ∧ price * qty < m))) ∧
    apply_exchange_rules (9999/1000) 1 rulesMinNotional10 =
      (9999/1000, 1, false) := by
  constructor
  · intro price qty mn mq
    unfold is_order_valid
    rcases mq with _ | m₁ <;> rcases mn with _ | m₂
    · simp [belowMin]
    · simp only [belowMin]
      by_cases h₂ : price * qty < m₂ <;> simp [h₂]
    · simp only [belowMin]
      by_cases h₁ : qty < m₁ <;> simp [h₁]
    · simp only [belowMin]
      by_cases h₁ : qty < m₁ <;> by_cases h₂ : price * qty < m₂ <;>
        simp [h₁, h₂]
  · unfold apply_exchange_rules rulesMinNotional10
    norm_num [round_price, round_qty, floor_to_step, ratTrunc, is_order_valid,
      belowMin]

/-- C9: `equity` is `cash + qty * p` for an explicit price, falls back to
the last marked price, and is exactly `cash` when no price exists. -/
theorem equity_spec (pf : Portfolio) (p lp : ℚ) :
    pf.equity (some p) = pf.cash + pf.qty * p ∧
    (pf.last_price = some lp → pf.equity none = pf.cash + pf.qty * lp) ∧
    (pf.last_price = none → pf.equity none = pf.cash) := by
  refine ⟨rfl, ?_, ?_⟩
  · intro h
    simp [Portfolio.equity, h]
  · intro h
    simp [Portfolio.equity, h]

/-- A concrete fresh portfolio: cash 10, flat position, no marked price. -/
def pfFlat : Portfolio :=
  { cash := 10
    qty := 0
    symbol := "BTCUSDT"
    fee_bps := 0
    starting_cash := 10
    last_price := none
    trades := []
    equity_curve := []
    avg_price := 0
    realized_pnl := 0
    realized_pnl_net_fees := false
    rules := none
    slippage_bps := 0 }

/-- Witness for C9: a fresh portfolio (no mark-to-market, position 0) has
`equity () = cash` exactly. -/
theorem equity_spec_witness :
    pfFlat.last_price = none ∧ pfFlat.equity none = pfFlat.cash ∧
    pfFlat.equity (some 7) = pfFlat.cash + pfFlat.qty * 7 := by
  refine ⟨rfl, (equity_spec pfFlat 7 0).2.2 rfl, (equity_spec pfFlat 7 0).1⟩

/-! ## Lemmas on the execution model -/

lemma apply_execution_model_valid_pos {pf : Portfolio} {side : Side}
    {rp q : ℚ} (h : (pf.apply_execution_model side rp q).valid = true) :
    0 < q ∧ 0 < rp := by
  simp only [Portfolio.apply_execution_model] at h
  split_ifs at h with h₁ h₂ h₃ h₄ <;> simp_all

lemma apply_execution_model_qty_rounded_pos {pf : Portfolio} {side : Side}
    {rp q : ℚ} (h : (pf.apply_execution_model side rp q).valid = true) :
    0 < (pf.apply_execution_model side rp q).qty_rounded := by
  simp only [Portfolio.apply_execution_model] at h ⊢
  split_ifs at h ⊢ with h₁ h₂ h₃ h₄ <;> simp_all

lemma apply_execution_model_notional (pf : Portfolio) (side : Side)
    (rp q : ℚ) :
    (pf.apply_execution_model side rp q).notional_after_round =
      (pf.apply_execution_model side rp q).exec_price *
        (pf.apply_execution_model side rp q).qty_rounded := by
  simp only [Portfolio.apply_execution_model]
  split_ifs <;> simp_all

lemma apply_execution_model_buy_afford {pf : Portfolio} {rp q : ℚ}
    (h : (pf.apply_execution_model Side.BUY rp q).valid = true) :
    (pf.apply_execution_model Side.BUY rp q).notional_after_round *
        (1 + pf.fee_bps / 10000) ≤ pf.cash + epsCash := by
  simp only [Portfolio.apply_execution_model] at h ⊢
  split_ifs at h ⊢ with h₁ h₂ h₃ h₄
  all_goals simp_all

/-- On a valid preview, `buy` reduces to its accepted branch. -/
lemma buy_valid_unfold (pf : Portfolio) (ts qty price : ℚ) (note : String)
    (h : (pf.apply_execution_model Side.BUY price qty).valid = true) :
    pf.buy ts qty price note =
      (let prev := pf.apply_execution_model Side.BUY price qty
       let notional := prev.qty_rounded * prev.exec_price
       let fee := pf.fee_from_notional notional
       let pf1 := { pf with
         cash := pf.cash - (notional + fee)
         qty := pf.qty + prev.qty_rounded
         avg_price :=
           if pf.qty ≤ 0 then prev.exec_price
           else (pf.avg_price * pf.qty + prev.exec_price * prev.qty_rounded) /
             (pf.qty + prev.qty_rounded)
         last_price := some prev.exec_price }
       { pf1 with trades := pf1.trades ++
          [{ ts := ts
             symbol := pf.symbol
             side := Side.BUY
             qty := prev.qty_rounded
             price := prev.exec_price
             fee := fee
             cash_after := pf1.cash
             qty_after := pf1.qty
             equity_after := pf1.equity (some prev.exec_price)
             realized_pnl := 0
             cum_realized_pnl := pf.realized_pnl
             note := note }] }) := by
  have hpos := apply_execution_model_valid_pos h
  have hq : ¬ qty ≤ 0 := not_le.mpr hpos.1
  have hnot := apply_execution_model_notional pf Side.BUY price qty
  have hafford := apply_execution_model_buy_afford h
  have hdef : ¬ (pf.cash + epsCash <
      (pf.apply_execution_model Side.BUY price qty).qty_rounded *
        (pf.apply_execution_model Side.BUY price qty).exec_price +
      pf.fee_from_notional
        ((pf.apply_execution_model Side.BUY price qty).qty_rounded *
          (pf.apply_execution_model Side.BUY price qty).exec_price)) := by
    rw [not_lt]
    calc (pf.apply_execution_model Side.BUY price qty).qty_rounded *
          (pf.apply_execution_model Side.BUY price qty).exec_price +
        pf.fee_from_notional
          ((pf.apply_execution_model Side.BUY price qty).qty_rounded *
            (pf.apply_execution_model Side.BUY price qty).exec_price) =
        (pf.apply_execution_model Side.BUY price qty).notional_after_round *
          (1 + pf.fee_bps / 10000) := by
          rw [hnot]; unfold Portfolio.fee_from_notional; ring
      _ ≤ pf.cash + epsCash := hafford
  simp only [Portfolio.buy, if_neg hq, h, Bool.true_eq_false, if_false,
    if_neg hdef]

/-- C1: every accepted BUY debits cash by exactly
`executed_price * executed_qty + fee` with
`fee = executed_price * executed_qty * fee_bps / 10000`, and records the
trade with `realized_pnl = 0`. -/
theorem buy_accepted_cash_and_fee (pf : Portfolio) (ts qty price : ℚ)
    (note : String)
    (h : (pf.apply_execution_model Side.BUY price qty).valid = true) :
    ∃ tr : Trade,
      (pf.buy ts qty price note).trades = pf.trades ++ [tr] ∧
      tr.price = (pf.apply_execution_model Side.BUY price qty).exec_price ∧
      tr.qty = (pf.apply_execution_model Side.BUY price qty).qty_rounded ∧
      tr.fee = tr.price * tr.qty * (pf.fee_bps / 10000) ∧
      (pf.buy ts qty price note).cash =
        pf.cash - (tr.price * tr.qty + tr.fee) ∧
      tr.realized_pnl = 0 := by
  rw [buy_valid_unfold pf ts qty price note h]
  refine ⟨_, rfl, rfl, rfl, ?_, ?_, rfl⟩
  · show (pf.apply_execution_model Side.BUY price qty).qty_rounded *
        (pf.apply_execution_model Side.BUY price qty).exec_price *
        (pf.fee_bps / 10000) =
      (pf.apply_execution_model Side.BUY price qty).exec_price *
        (pf.apply_execution_model Side.BUY price qty).qty_rounded *
        (pf.fee_bps / 10000)
    ring
  · show pf.cash -
        ((pf.apply_execution_model Side.BUY price qty).qty_rounded *
          (pf.apply_execution_model Side.BUY price qty).exec_price +
         (pf.apply_execution_model Side.BUY price qty).qty_rounded *
          (pf.apply_execution_model Side.BUY price qty).exec_price *
          (pf.fee_bps / 10000)) =
      pf.cash -
        ((pf.apply_execution_model Side.BUY price qty).exec_price *
          (pf.apply_execution_model Side.BUY price qty).qty_rounded +
         (pf.apply_execution_model Side.BUY price qty).qty_rounded *
          (pf.apply_execution_model Side.BUY price qty).exec_price *
          (pf.fee_bps / 10000))
    ring

/-- C3: a positive sell request exceeding the position by more than the
`1e-12` tolerance raises instead of clamping; no state is returned. -/
theorem sell_insufficient_position_raises (pf : Portfolio)
    (ts qty price : ℚ) (note : String) (hq : 0 < qty)
    (hover : pf.qty + epsQty < qty) :
    pf.sell ts qty price note =
      Except.error "No hay cantidad suficiente para vender." := by
  unfold Portfolio.sell
  rw [if_neg (not_le.mpr hq), if_pos hover]

/-- Witness for C3: selling 2 with a position of 1 raises. -/
theorem sell_insufficient_position_raises_witness :
    (0 : ℚ) < 2 ∧ ({ pfFlat with qty := 1 } : Portfolio).qty + epsQty < 2 ∧
    ({ pfFlat with qty := 1 } : Portfolio).sell 0 2 5 "" =
      Except.error "No hay cantidad suficiente para vender." := by
  refine ⟨by norm_num, by norm_num [pfFlat, epsQty], ?_⟩
  exact sell_insufficient_position_raises { pfFlat with qty := 1 } 0 2 5 ""
    (by norm_num) (by norm_num [pfFlat, epsQty])

/-- C4: a request the execution model rejects changes nothing: `buy`
returns the portfolio unchanged, and `sell` (absent a position-contract
violation) returns it unchanged inside `Except.ok`. -/
theorem rejected_request_leaves_state_unchanged (pf : Portfolio)
    (ts qty price : ℚ) (note : String) :
    ((pf.apply_execution_model Side.BUY price qty).valid = false →
      pf.buy ts qty price note = pf) ∧
    (¬ pf.qty + epsQty < qty →
      (pf.apply_execution_model Side.SELL price qty).valid = false →
      pf.sell ts qty price note = Except.ok pf) := by
  constructor
  · intro hv
    unfold Portfolio.buy
    by_cases hq : qty ≤ 0
    · rw [if_pos hq]
    · rw [if_neg hq]
      simp only [hv, if_true]
  · intro hnr hv
    unfold Portfolio.sell
    by_cases hq : qty ≤ 0
    · rw [if_pos hq]
    · rw [if_neg hq, if_neg hnr]
      simp only [hv, if_true]

/-- Witness for C4: a zero-quantity BUY and an unaffordable BUY are both
dropped without touching the portfolio, as is a below-min-notional SELL. -/
theorem rejected_request_leaves_state_unchanged_witness :
    (pfFlat.apply_execution_model Side.BUY 5 0).valid = false ∧
    pfFlat.buy 0 0 5 "" = pfFlat ∧
    ¬ ({ pfFlat with qty := 1 } : Portfolio).qty + epsQty < (1 : ℚ) ∧
    (({ pfFlat with qty := 1 } : Portfolio).apply_execution_model
      Side.SELL 0 1).valid = false ∧
    ({ pfFlat with qty := 1 } : Portfolio).sell 0 1 0 "" =
      Except.ok { pfFlat with qty := 1 } := by
  have h₁ : (pfFlat.apply_execution_model Side.BUY 5 0).valid = false := by
    norm_num [Portfolio.apply_execution_model]
  have h₂ : (({ pfFlat with qty := 1 } : Portfolio).apply_execution_model
      Side.SELL 0 1).valid = false := by
    norm_num [Portfolio.apply_execution_model]
  have h₃ : ¬ ({ pfFlat with qty := 1 } : Portfolio).qty + epsQty < (1 : ℚ) := by
    norm_num [pfFlat, epsQty]
  refine ⟨h₁, (rejected_request_leaves_state_unchanged pfFlat 0 0 5 "").1 h₁,
    h₃, h₂, (rejected_request_leaves_state_unchanged
      { pfFlat with qty := 1 } 0 1 0 "").2 h₃ h₂⟩

/-- On a valid preview (and no position-contract violation), `sell`
reduces to its accepted branch. -/
lemma sell_valid_unfold (pf : Portfolio) (ts qty price : ℚ) (note : String)
    (hnr : ¬ pf.qty + epsQty < qty)
    (h : (pf.apply_execution_model Side.SELL price qty).valid = true) :
    pf.sell ts qty price note =
      (let prev := pf.apply_execution_model Side.SELL price qty
       let q :=
         if pf.qty + epsQty < prev.qty_rounded then min prev.qty_rounded pf.qty
         else prev.qty_rounded
       let notional := q * prev.exec_price
       let fee := pf.fee_from_notional notional
       let realized :=
         if pf.realized_pnl_net_fees then (prev.exec_price - pf.avg_price) * q - fee
         else (prev.exec_price - pf.avg_price) * q
       let cum := pf.realized_pnl + realized
       let qty_left := pf.qty - q
       let pf1 := { pf with
         cash := pf.cash + (notional - fee)
         qty := if qty_left ≤ epsQty then 0 else qty_left
         avg_price := if qty_left ≤ epsQty then 0 else pf.avg_price
         realized_pnl := cum
         last_price := some prev.exec_price }
       Except.ok { pf1 with trades := pf1.trades ++
          [{ ts := ts
             symbol := pf.symbol
             side := Side.SELL
             qty := q
             price := prev.exec_price
             fee := fee
             cash_after := pf1.cash
             qty_after := pf1.qty
             equity_after := pf1.equity (some prev.exec_price)
             realized_pnl := realized
             cum_realized_pnl := cum
             note := note }] }) := by
  have hpos := apply_execution_model_valid_pos h
  simp only [Portfolio.sell, if_neg (not_le.mpr hpos.1), if_neg hnr, h,
    Bool.true_eq_false, if_false]

/-- C2: an accepted SELL reduces the position by the executed quantity up
to the `1e-12` tolerance, the position never goes negative, and a
residual `≤ 1e-12` is snapped to exactly 0 with the average cost reset. -/
theorem sell_accepted_position_conservation (pf : Portfolio)
    (ts qty price : ℚ) (note : String)
    (hnr : ¬ pf.qty + epsQty < qty)
    (h : (pf.apply_execution_model Side.SELL price qty).valid = true) :
    ∃ pf' tr,
      pf.sell ts qty price note = Except.ok pf' ∧
      pf'.trades = pf.trades ++ [tr] ∧
      -epsQty ≤ pf.qty - tr.qty ∧
      (pf.qty - tr.qty ≤ epsQty → pf'.qty = 0 ∧ pf'.avg_price = 0) ∧
      (epsQty < pf.qty - tr.qty →
        pf'.qty = pf.qty - tr.qty ∧ pf'.avg_price = pf.avg_price) ∧
      0 ≤ pf'.qty := by
  rw [sell_valid_unfold pf ts qty price note hnr h]
  have heps : (0 : ℚ) < epsQty := by norm_num [epsQty]
  set prev := pf.apply_execution_model Side.SELL price qty with hprev
  set q :=
    (if pf.qty + epsQty < prev.qty_rounded then min prev.qty_rounded pf.qty
     else prev.qty_rounded) with hq
  have hqle : -epsQty ≤ pf.qty - q := by
    rw [hq]
    split_ifs with hc
    · have : min prev.qty_rounded pf.qty ≤ pf.qty := min_le_right _ _
      linarith
    · rw [not_lt] at hc
      linarith
  refine ⟨_, _, rfl, rfl, hqle, ?_, ?_, ?_⟩
  · intro hle
    constructor
    · show (if pf.qty - q ≤ epsQty then (0 : ℚ) else pf.qty - q) = 0
      rw [if_pos hle]
    · show (if pf.qty - q ≤ epsQty then (0 : ℚ) else pf.avg_price) = 0
      rw [if_pos hle]
  · intro hgt
    constructor
    · show (if pf.qty - q ≤ epsQty then (0 : ℚ) else pf.qty - q) = pf.qty - q
      rw [if_neg (not_le.mpr hgt)]
    · show (if pf.qty - q ≤ epsQty then (0 : ℚ) else pf.avg_price) =
        pf.avg_price
      rw [if_neg (not_le.mpr hgt)]
  · show (0 : ℚ) ≤ if pf.qty - q ≤ epsQty then (0 : ℚ) else pf.qty - q
    split_ifs with hc
    · exact le_refl 0
    · rw [not_le] at hc
      linarith

/-- A funded portfolio with a 10 bps fee, for the BUY witnesses. -/
def pfFee : Portfolio := { pfFlat with cash := 1000, fee_bps := 10 }

/-- A portfolio holding 2 units at average cost 5, for the SELL
witnesses. -/
def pfHeld : Portfolio := { pfFlat with qty := 2, avg_price := 5 }

/-- Witness for C1 at `cash = 1000`, `fee_bps = 10`, buying 1 at 10. -/
theorem buy_accepted_cash_and_fee_witness :
    (pfFee.apply_execution_model Side.BUY 10 1).valid = true ∧
    (∃ tr : Trade,
      (pfFee.buy 0 1 10 "").trades = pfFee.trades ++ [tr] ∧
      tr.price = (pfFee.apply_execution_model Side.BUY 10 1).exec_price ∧
      tr.qty = (pfFee.apply_execution_model Side.BUY 10 1).qty_rounded ∧
      tr.fee = tr.price * tr.qty * (pfFee.fee_bps / 10000) ∧
      (pfFee.buy 0 1 10 "").cash =
        pfFee.cash - (tr.price * tr.qty + tr.fee) ∧
      tr.realized_pnl = 0) := by
  have h : (pfFee.apply_execution_model Side.BUY 10 1).valid = true := by
    norm_num [Portfolio.apply_execution_model, pfFee, pfFlat, epsCash]
  exact ⟨h, buy_accepted_cash_and_fee pfFee 0 1 10 "" h⟩

/-- Witness for C2: selling 1 out of a position of 2 at price 10. -/
theorem sell_accepted_position_conservation_witness :
    ¬ pfHeld.qty + epsQty < (1 : ℚ) ∧
    (pfHeld.apply_execution_model Side.SELL 10 1).valid = true ∧
    (∃ pf' tr,
      pfHeld.sell 0 1 10 "" = Except.ok pf' ∧
      pf'.trades = pfHeld.trades ++ [tr] ∧
      -epsQty ≤ pfHeld.qty - tr.qty ∧
      (pfHeld.qty - tr.qty ≤ epsQty → pf'.qty = 0 ∧ pf'.avg_price = 0) ∧
      (epsQty < pfHeld.qty - tr.qty →
        pf'.qty = pfHeld.qty - tr.qty ∧ pf'.avg_price = pfHeld.avg_price) ∧
      0 ≤ pf'.qty) := by
  have hnr : ¬ pfHeld.qty + epsQty < (1 : ℚ) := by
    norm_num [pfHeld, pfFlat, epsQty]
  have h : (pfHeld.apply_execution_model Side.SELL 10 1).valid = true := by
    norm_num [Portfolio.apply_execution_model, pfHeld, pfFlat, epsCash]
  exact ⟨hnr, h, sell_accepted_position_conservation pfHeld 0 1 10 "" hnr h⟩

/-- C10: an accepted order overwrites the last marked price with the
executed (slippage-adjusted, rounded) price, so later `equity()` calls
reflect the execution price. -/
theorem accepted_order_overwrites_last_price (pf : Portfolio)
    (ts qty price : ℚ) (note : String) :
    ((pf.apply_execution_model Side.BUY price qty).valid = true →
      (pf.buy ts qty price note).last_price =
        some (pf.apply_execution_model Side.BUY price qty).exec_price ∧
      (pf.buy ts qty price note).equity none =
        (pf.buy ts qty price note).cash +
          (pf.buy ts qty price note).qty *
            (pf.apply_execution_model Side.BUY price qty).exec_price) ∧
    (¬ pf.qty + epsQty < qty →
      (pf.apply_execution_model Side.SELL price qty).valid = true →
      ∃ pf', pf.sell ts qty price note = Except.ok pf' ∧
        pf'.last_price =
          some (pf.apply_execution_model Side.SELL price qty).exec_price) := by
  constructor
  · intro h
    rw [buy_valid_unfold pf ts qty price note h]
    exact ⟨rfl, by simp [Portfolio.equity]⟩
  · intro hnr h
    rw [sell_valid_unfold pf ts qty price note hnr h]
    exact ⟨_, rfl, rfl⟩

/-- Witness for C10: the BUY of the C1 witness and the SELL of the C2
witness both re-mark the last price at the execution price. -/
theorem accepted_order_overwrites_last_price_witness :
    (pfFee.apply_execution_model Side.BUY 10 1).valid = true ∧
    (pfFee.buy 0 1 10 "").last_price =
      some (pfFee.apply_execution_model Side.BUY 10 1).exec_price ∧
    ¬ pfHeld.qty + epsQty < (1 : ℚ) ∧
    (pfHeld.apply_execution_model Side.SELL 10 1).valid = true ∧
    (∃ pf', pfHeld.sell 0 1 10 "" = Except.ok pf' ∧
      pf'.last_price =
        some (pfHeld.apply_execution_model Side.SELL 10 1).exec_price) := by
  have hb : (pfFee.apply_execution_model Side.BUY 10 1).valid = true := by
    norm_num [Portfolio.apply_execution_model, pfFee, pfFlat, epsCash]
  have hnr : ¬ pfHeld.qty + epsQty < (1 : ℚ) := by
    norm_num [pfHeld, pfFlat, epsQty]
  have hs : (pfHeld.apply_execution_model Side.SELL 10 1).valid = true := by
    norm_num [Portfolio.apply_execution_model, pfHeld, pfFlat, epsCash]
  exact ⟨hb, ((accepted_order_overwrites_last_price pfFee 0 1 10 "").1 hb).1,
    hnr, hs, (accepted_order_overwrites_last_price pfHeld 0 1 10 "").2 hnr hs⟩

/-- Counterexample to C5 as stated: with cash 10, zero fees and zero
slippage, a BUY whose notional is `10 + 5e-10` is accepted by the
execution model although the notional exceeds the available cash — the
affordability check allows a `1e-9` tolerance, so acceptance does not
imply `rounded_notional * (1 + fee_bps/10000) ≤ cash`. -/
theorem buy_affordability_strict_cex :
    (pfFlat.apply_execution_model Side.BUY (10 + 1/2000000000) 1).valid = true ∧
    (pfFlat.apply_execution_model Side.BUY
        (10 + 1/2000000000) 1).notional_after_round *
      (1 + pfFlat.fee_bps / 10000) > pfFlat.cash := by
  norm_num [Portfolio.apply_execution_model, pfFlat, epsCash]

/-- C5 (amended): an accepted BUY satisfies
`rounded_notional * (1 + fee_bps/10000) ≤ cash + 1e-9`, and a BUY whose
fee-inclusive notional exceeds `cash + 1e-9` is rejected. -/
theorem buy_affordability_tolerance (pf : Portfolio) (price qty : ℚ) :
    ((pf.apply_execution_model Side.BUY price qty).valid = true →
      (pf.apply_execution_model Side.BUY price qty).notional_after_round *
        (1 + pf.fee_bps / 10000) ≤ pf.cash + epsCash) ∧
    ((pf.apply_execution_model Side.BUY price qty).notional_after_round *
        (1 + pf.fee_bps / 10000) > pf.cash + epsCash →
      (pf.apply_execution_model Side.BUY price qty).valid = false) := by
  constructor
  · exact fun h => apply_execution_model_buy_afford h
  · intro hgt
    cases hv : (pf.apply_execution_model Side.BUY price qty).valid with
    | false => rfl
    | true => exact absurd (apply_execution_model_buy_afford hv) (not_le.mpr hgt)

/-- Witness for C5 (amended) at the accepted BUY of the C1 witness. -/
theorem buy_affordability_tolerance_witness :
    (pfFee.apply_execution_model Side.BUY 10 1).valid = true ∧
    (pfFee.apply_execution_model Side.BUY 10 1).notional_after_round *
      (1 + pfFee.fee_bps / 10000) ≤ pfFee.cash + epsCash := by
  have h : (pfFee.apply_execution_model Side.BUY 10 1).valid = true := by
    norm_num [Portfolio.apply_execution_model, pfFee, pfFlat, epsCash]
  exact ⟨h, (buy_affordability_tolerance pfFee 10 1).1 h⟩

/-! ## Lemmas on the engine loop -/

/-- The per-bar equity samples produced by the engine loop: mark to
market with the close, record `(ts, equity)`, then let the strategy act
before the next bar. -/
def loopCurve (strat : Strategy) : List Bar → Portfolio → List (ℚ × ℚ)
  | [], _ => []
  | bar :: rest, pf =>
    let pf1 := pf.mark_to_market bar.close
    (bar.ts, pf1.equity none) :: loopCurve strat rest (strat.on_bar bar pf1)

lemma engineLoop_snd (strat : Strategy) :
    ∀ (bars : List Bar) (pf : Portfolio) (curve : List (ℚ × ℚ)),
      (engineLoop strat bars pf curve).2 = curve ++ loopCurve strat bars pf := by
  intro bars
  induction bars with
  | nil => intro pf curve; simp [engineLoop, loopCurve]
  | cons b bs ih =>
    intro pf curve
    simp [engineLoop, loopCurve, ih, List.append_assoc]

lemma loopCurve_length (strat : Strategy) :
    ∀ (bars : List Bar) (pf : Portfolio),
      (loopCurve strat bars pf).length = bars.length := by
  intro bars
  induction bars with
  | nil => intro pf; simp [loopCurve]
  | cons b bs ih => intro pf; simp [loopCurve, ih]

lemma loopCurve_map_fst (strat : Strategy) :
    ∀ (bars : List Bar) (pf : Portfolio),
      (loopCurve strat bars pf).map Prod.fst = bars.map Bar.ts := by
  intro bars
  induction bars with
  | nil => intro pf; simp [loopCurve]
  | cons b bs ih => intro pf; simp [loopCurve, ih]

/-- C6 (amended): over a non-empty bar sequence the equity curve holds
one per-bar sample (timestamped and recorded between mark-to-market and
the strategy callback, in arrival order), a final sample equal to the
terminal equity is appended exactly when the last per-bar sample differs
from it, and the curve's last point always equals the terminal equity;
the curve has one row per bar plus at most one final row. -/
theorem run_engine_equity_curve (bars : List Bar) (pf : Portfolio)
    (strat : Strategy) (hne : bars ≠ []) :
    (run_engine bars pf strat).equity_curve.take bars.length =
      loopCurve strat bars pf ∧
    ((run_engine bars pf strat).equity_curve.length = bars.length ∨
      (run_engine bars pf strat).equity_curve.length = bars.length + 1) ∧
    ∃ t, (run_engine bars pf strat).equity_curve.getLast? =
      some (t, (run_engine bars pf strat).equity none) := by
  have hlb : bars.getLast? = some (bars.getLast hne) :=
    List.getLast?_eq_getLast bars hne
  have hlen := loopCurve_length strat bars pf
  simp only [run_engine, engineLoop_snd, List.nil_append, hlb]
  split_ifs with hA
  · refine ⟨List.take_left' hlen, Or.inr (by simp [hlen]), ?_⟩
    refine ⟨(bars.getLast hne).ts, ?_⟩
    rw [List.getLast?_concat]
    rfl
  · push_neg at hA
    obtain ⟨p, hp, hsnd⟩ := Option.map_eq_some'.mp hA.2
    refine ⟨?_, Or.inl hlen, ?_⟩
    · rw [← hlen]
      exact List.take_length _
    · refine ⟨p.1, ?_⟩
      rw [hp]
      exact congrArg some (Prod.ext rfl hsnd)

/-- A single unit bar at timestamp 0 with close 1. -/
def barUnit : Bar :=
  { ts := 0
    open_p := 1
    high := 1
    low := 1
    close := 1
    volume := 0
    symbol := "BTCUSDT" }

/-- A do-nothing decision policy with neither optional hook. -/
def stratId : Strategy :=
  { on_bar := fun _ pf => pf
    on_finish := none
    on_end := none }

/-- Counterexample to C6 as stated: running one bar with a do-nothing
policy leaves the equity curve with exactly one row — the final sample is
NOT appended (the last per-bar sample already equals the final equity),
so the export does not have one row per bar plus a final row. -/
theorem run_engine_final_row_not_always_appended :
    (run_engine [barUnit] pfFlat stratId).equity_curve = [(0, 10)] ∧
    (run_engine [barUnit] pfFlat stratId).equity_curve.length ≠
      ([barUnit] : List Bar).length + 1 := by
  have h : (run_engine [barUnit] pfFlat stratId).equity_curve = [(0, 10)] := by
    norm_num [run_engine, engineLoop, stratId, barUnit, pfFlat,
      Portfolio.mark_to_market, Portfolio.equity]
  refine ⟨h, ?_⟩
  rw [h]
  norm_num

/-- Witness for C6 (amended) on the one-bar do-nothing run. -/
theorem run_engine_equity_curve_witness :
    ([barUnit] : List Bar) ≠ [] ∧
    ((run_engine [barUnit] pfFlat stratId).equity_curve.take
        ([barUnit] : List Bar).length = loopCurve stratId [barUnit] pfFlat ∧
      ((run_engine [barUnit] pfFlat stratId).equity_curve.length =
          ([barUnit] : List Bar).length ∨
        (run_engine [barUnit] pfFlat stratId).equity_curve.length =
          ([barUnit] : List Bar).length + 1) ∧
      ∃ t, (run_engine [barUnit] pfFlat stratId).equity_curve.getLast? =
        some (t, (run_engine [barUnit] pfFlat stratId).equity none)) :=
  ⟨by simp, run_engine_equity_curve [barUnit] pfFlat stratId (by simp)⟩

end Volmicro
